import Mathlib

/-!
Verification of the itsdangerous.js signing and serialization library.

This development is a shallow embedding of the library's core modules:

* `src/encoding.ts` — byte/integer codec (`intToBuffer`, `bufferToInt`) and
  the base64url alphabet constant;
* `src/signer.ts` — `SigningAlgorithm`, `Signer` (key derivation, sign,
  verifySignature, unsign, validate); both the `Uint8Array`/WebCrypto
  implementation and the `Buffer`/node:crypto implementation of
  `verifySignature` (they differ: the latter iterates
  `this.secretKeys.reverse()`, which mutates the instance field in place);
* `src/timed.ts` — `TimestampSigner` (timestamped sign/unsign with optional
  `maxAge`) and `TimedSerializer`;
* `src/serializer.ts` — `Serializer` (payload codec around a signer);
* `src/url-safe.ts` — `encodePayload` / `decodePayload` (compress-if-smaller
  plus base64url with a leading `.` marker).

External collaborators (the WebCrypto hash/HMAC provider, the base64url
codec, the DEFLATE compressor and the JSON codec) are out of scope of the
library itself, so they are modelled as structures of abstract functions;
the theorems take the contract each collaborator is assumed to satisfy as a
hypothesis, and the witnesses instantiate them with small concrete
implementations (a unary byte codec for base64, concatenation for HMAC).

Bytes are modelled as `List Nat` (`Uint8Array` contents), errors as an
inductive mirroring the class hierarchy of `src/errors.ts`, and thrown
exceptions as `Except`.
-/

namespace Itsdangerous

/-- A byte string (`Uint8Array` contents). -/
abbrev Bytes := List Nat

/-- ASCII bytes of a string, as produced by `TextEncoder`/`wantBuffer` for
ASCII input. -/
def strBytes (s : String) : Bytes := s.data.map Char.toNat

/-- ASCII decoding of a byte list (`TextDecoder` restricted to ASCII data). -/
def bytesStr (b : Bytes) : String := String.mk (b.map Char.ofNat)

/-- `BASE64_ALPHABET` from `src/encoding.ts`:
`'abcdefghijklmnopqrstuvwxyzABCDEFGHIJKLMNOPQRSTUVWXYZ0123456789-_='`,
as its byte values. -/
def b64Alphabet : Bytes :=
  strBytes "abcdefghijklmnopqrstuvwxyzABCDEFGHIJKLMNOPQRSTUVWXYZ0123456789-_="

/-- Big-endian byte expansion of a natural number into `k` bytes (the
contents `DataView.setBigUint64` writes when `k = 8`, most significant
byte first). -/
def beBytes : Nat → Nat → Bytes
  | 0, _ => []
  | k + 1, n => beBytes k (n / 256) ++ [n % 256]

/-- `intToBuffer` from `src/encoding.ts`: write the value as an 8-byte
big-endian `DataView` (`setBigUint64` wraps modulo `2^64`), then slice off
all leading zero bytes. -/
def intToBuffer (n : Nat) : Bytes :=
  (beBytes 8 (n % 2 ^ 64)).dropWhile (· == 0)

/-- `bufferToInt` from `src/encoding.ts`: the bytes are written into an
8-byte `DataView` right-aligned (`start = 8 - buffer.byteLength`) and read
back as a big-endian unsigned 64-bit integer.  When the buffer is longer
than 8 bytes, `start` is negative and `setUint8` throws a `RangeError`,
modelled as `none`. -/
def bufferToInt (b : Bytes) : Option Nat :=
  if b.length > 8 then none
  else some (b.foldl (fun a x => a * 256 + x % 256) 0)

/-- Index of the last occurrence of byte `x` in `l`
(`Uint8Array.prototype.lastIndexOf`; `none` models the `-1` result). -/
def lastIdx? : Bytes → Nat → Option Nat
  | [], _ => none
  | a :: l, x =>
    match lastIdx? l x with
    | some i => some (i + 1)
    | none => if a == x then some 0 else none

/-- JavaScript `String.prototype.includes` at byte level: does `l` contain
`sub` as a contiguous substring?  (`s.includes('')` is the `sub = []` case,
which is `true` for every `l`.) -/
def listIncludes : Bytes → Bytes → Bool
  | l, sub =>
    sub.isPrefixOf l ||
      match l with
      | [] => false
      | _ :: t => listIncludes t sub


/-- Fold a byte list back into its big-endian value. -/
def beFold (b : Bytes) : Nat := b.foldl (fun a x => a * 256 + x % 256) 0

/-- The four key-derivation modes `Signer.deriveKey` understands. -/
def kdKnown (kd : String) : Prop :=
  kd = "concat" ∨ kd = "django-concat" ∨ kd = "hmac" ∨ kd = "none"


end Itsdangerous

namespace Itsdangerous

/-- The error hierarchy of `src/errors.ts`.  `BadSignatureError`,
`BadTimeSignatureError` and `SignatureExpiredError` form a subclass chain
(`SignatureExpiredError <: BadTimeSignatureError <: BadSignatureError <:
BadDataError`); `BadPayloadError <: BadDataError`.  `typeError` models the
built-in `TypeError`, `other` any other thrown `Error`.  Dates are carried
as milliseconds since the epoch. -/
inductive Err where
  | badData (message : String)
  | badSignature (message : String) (payload : Bytes)
  | badTimeSignature (message : String) (payload : Bytes) (dateSigned : Option Int)
  | signatureExpired (message : String) (payload : Bytes) (dateSigned : Option Int)
  | badPayload (message : String)
  | typeError (message : String)
  | other (message : String)
  deriving Repr, DecidableEq

instance {ε α : Type} [DecidableEq ε] [DecidableEq α] : DecidableEq (Except ε α) :=
  fun x y =>
    match x, y with
    | .ok a, .ok b =>
      if h : a = b then isTrue (by rw [h]) else isFalse (by simp [h])
    | .error a, .error b =>
      if h : a = b then isTrue (by rw [h]) else isFalse (by simp [h])
    | .ok _, .error _ => isFalse (by simp)
    | .error _, .ok _ => isFalse (by simp)

/-- `error instanceof BadSignatureError`: true for `BadSignatureError` and
its subclasses `BadTimeSignatureError` and `SignatureExpiredError`. -/
def Err.isBadSignatureError : Err → Bool
  | .badSignature _ _ => true
  | .badTimeSignature _ _ _ => true
  | .signatureExpired _ _ _ => true
  | _ => false

/-- The `message` property of a thrown error. -/
def Err.msg : Err → String
  | .badData m => m
  | .badSignature m _ => m
  | .badTimeSignature m _ _ => m
  | .signatureExpired m _ _ => m
  | .badPayload m => m
  | .typeError m => m
  | .other m => m

/-- The `payload` property of a `BadSignatureError` (and subclasses). -/
def Err.payloadB : Err → Bytes
  | .badSignature _ p => p
  | .badTimeSignature _ p _ => p
  | .signatureExpired _ p _ => p
  | _ => []

/-- The external base64url codec (`uint8array-extras` in the source; the
spec lists base64url transcoding as an external collaborator).  `dec`
returns `none` where `base64Decode` would throw `BadDataError`. -/
structure B64Codec where
  enc : Bytes → Bytes
  dec : Bytes → Option Bytes

/-- The contract assumed of the base64url collaborator: decoding inverts
encoding, and encoded output only uses the base64url alphabet (hence never
contains a separator byte that is outside the alphabet). -/
def B64Codec.Lawful (E : B64Codec) : Prop :=
  (∀ x, E.dec (E.enc x) = some x) ∧ ∀ x, ∀ b ∈ E.enc x, b ∈ b64Alphabet

/-- The external WebCrypto provider: `hashDigest(algo, data)` and
`hmacDigest(algo, key, data)` from `src/signer.ts`. -/
structure CryptoProvider where
  hash : String → Bytes → Bytes
  hmac : String → Bytes → Bytes → Bytes

/-- A `SigningAlgorithm` instance: `getSignature(key, value)`; `none`
models an implementation that throws (the abstract base class throws
`Not implemented`). -/
structure SigningAlgorithm where
  getSignature : Bytes → Bytes → Option Bytes

/-- `SigningAlgorithm.verifySignature`: recompute the signature and compare
(`areUint8ArraysEqual`); any exception from `getSignature` is caught and
yields `false`. -/
def SigningAlgorithm.verify (A : SigningAlgorithm) (key value sig : Bytes) : Bool :=
  match A.getSignature key value with
  | some expected => sig == expected
  | none => false

/-- `NoneAlgorithm`: always returns an empty signature. -/
def NoneAlgorithm : SigningAlgorithm := ⟨fun _ _ => some []⟩

/-- `HMACAlgorithm`: HMAC with the given digest method over the provider. -/
def HMACAlgorithm (C : CryptoProvider) (digestMethod : String) : SigningAlgorithm :=
  ⟨fun key value => some (C.hmac digestMethod key value)⟩

/-- The immutable per-instance configuration of a `Signer`
(`secretKeys`, `separator`, `salt`, `keyDerivation`, `digestMethod`,
`algorithm`).  `keyDerivation` is a string because the TypeScript enum is
string-valued and an unknown string reaches `deriveKey`'s `default:`
branch. -/
structure SignerCfg where
  secretKeys : List Bytes
  separator : Bytes
  salt : Bytes
  keyDerivation : String
  digestMethod : String
  algorithm : SigningAlgorithm

def defaultSignerSalt : Bytes := strBytes "itsdangerous.Signer"
def defaultSeparator : Bytes := strBytes "."
def defaultKeyDerivationStr : String := "django-concat"
def defaultDigestMethodStr : String := "SHA-1"

/-- The `Signer` constructor: builds the configuration, throwing
`TypeError` when `BASE64_ALPHABET.includes(separator)` — note this is a
substring test of the separator against the alphabet string, exactly as in
the source. -/
def Signer.make (C : CryptoProvider) (secretKeys : List Bytes) (salt separator : Bytes)
    (keyDerivation digestMethod : Option String) (algorithm : Option SigningAlgorithm) :
    Except Err SignerCfg :=
  if listIncludes b64Alphabet separator then
    .error (.typeError
      "The given separator cannot be used because it may be contained in the signature itself. ASCII letters, digits, and \x27-_=\x27 must not be used.")
  else
    .ok { secretKeys := secretKeys
          separator := separator
          salt := salt
          keyDerivation := keyDerivation.getD defaultKeyDerivationStr
          digestMethod := digestMethod.getD defaultDigestMethodStr
          algorithm := algorithm.getD (HMACAlgorithm C (digestMethod.getD defaultDigestMethodStr)) }

/-- `Signer.deriveKey`: derive the MAC key from one secret (defaulting to
the newest, i.e. last, secret) according to the key-derivation mode; an
unknown mode throws `TypeError`.  `other` models the crash the
non-null assertion `this.secretKeys.at(-1)!` would cause on an empty key
list. -/
def Signer.deriveKey (cfg : SignerCfg) (C : CryptoProvider) (secretKey : Option Bytes) :
    Except Err Bytes :=
  match cfg.keyDerivation with
  | "concat" =>
    match secretKey.or cfg.secretKeys.getLast? with
    | some k => .ok (C.hash cfg.digestMethod (cfg.salt ++ k))
    | none => .error (.other "undefined secret key")
  | "django-concat" =>
    match secretKey.or cfg.secretKeys.getLast? with
    | some k => .ok (C.hash cfg.digestMethod (cfg.salt ++ strBytes "signer" ++ k))
    | none => .error (.other "undefined secret key")
  | "hmac" =>
    match secretKey.or cfg.secretKeys.getLast? with
    | some k => .ok (C.hmac cfg.digestMethod k cfg.salt)
    | none => .error (.other "undefined secret key")
  | "none" =>
    match secretKey.or cfg.secretKeys.getLast? with
    | some k => .ok k
    | none => .error (.other "undefined secret key")
  | _ => .error (.typeError "Invalid key derivation method")

/-- `Signer.getSignature`: derive the signing key from the newest secret,
run the algorithm, base64url-encode the result. -/
def Signer.getSignature (cfg : SignerCfg) (C : CryptoProvider) (E : B64Codec)
    (value : Bytes) : Except Err Bytes := do
  let key ← Signer.deriveKey cfg C none
  match cfg.algorithm.getSignature key value with
  | some sig => .ok (E.enc sig)
  | none => .error (.other "Not implemented")

/-- `Signer.sign`: `value || separator || getSignature(value)`. -/
def Signer.sign (cfg : SignerCfg) (C : CryptoProvider) (E : B64Codec)
    (value : Bytes) : Except Err Bytes := do
  let sig ← Signer.getSignature cfg C E value
  .ok (value ++ cfg.separator ++ sig)

/-- The key loop of `Signer.verifySignature`: try each secret in the given
order, deriving a key per secret and delegating to the algorithm's verify;
`true` on first match. -/
def Signer.verifyLoop (cfg : SignerCfg) (C : CryptoProvider) (value dsig : Bytes) :
    List Bytes → Except Err Bool
  | [] => .ok false
  | k :: rest => do
    let key ← Signer.deriveKey cfg C (some k)
    if cfg.algorithm.verify key value dsig then .ok true
    else Signer.verifyLoop cfg C value dsig rest

/-- `Signer.verifySignature` (the `Uint8Array` implementation, which
iterates `this.secretKeys` in configured order): base64url-decode the
signature (`false` on decode failure), then try every configured secret. -/
def Signer.verifySignature (cfg : SignerCfg) (C : CryptoProvider) (E : B64Codec)
    (value sig : Bytes) : Except Err Bool :=
  match E.dec sig with
  | none => .ok false
  | some dsig => Signer.verifyLoop cfg C value dsig cfg.secretKeys

/-- `Signer.verifySignature` of the `Buffer`/node:crypto implementation
(`src/signer.ts`, `for (const secretKey of this.secretKeys.reverse())`):
`Array.prototype.reverse` reverses `this.secretKeys` **in place**, so the
call both iterates the keys newest-first and leaves the instance's
`secretKeys` field reversed.  The result pairs the returned value with the
instance configuration as it stands after the call. -/
def SignerBuf.verifySignature (cfg : SignerCfg) (C : CryptoProvider) (E : B64Codec)
    (value sig : Bytes) : Except Err Bool × SignerCfg :=
  match E.dec sig with
  | none => (.ok false, cfg)
  | some dsig =>
    let reversedKeys := cfg.secretKeys.reverse
    (Signer.verifyLoop cfg C value dsig reversedKeys,
      { cfg with secretKeys := reversedKeys })

/-- `signedBuffer.lastIndexOf(this.separator[0])`: index of the last
occurrence of the separator's first byte (`none` when the separator is
empty — `separator[0]` is `undefined` then — or the byte does not occur). -/
def lastSepIdx (signedValue sep : Bytes) : Option Nat :=
  match sep with
  | [] => none
  | s0 :: _ => lastIdx? signedValue s0

/-- `Signer.unsign` (`Uint8Array` implementation): split at the last
occurrence of the separator's first byte; `BadSignatureError` (payload =
whole input) when absent; `BadSignatureError` (payload = value part) when
`verifySignature` fails. -/
def Signer.unsign (cfg : SignerCfg) (C : CryptoProvider) (E : B64Codec)
    (signedValue : Bytes) : Except Err Bytes :=
  match lastSepIdx signedValue cfg.separator with
  | none =>
    .error (.badSignature
      ("Separator \x27" ++ bytesStr cfg.separator ++ "\x27 not found in value") signedValue)
  | some i =>
    let value := signedValue.take i
    let sig := signedValue.drop (i + cfg.separator.length)
    do
      let good ← Signer.verifySignature cfg C E value sig
      if good then .ok value
      else .error (.badSignature "Invalid signature for the provided value." value)

/-- `Signer.validate`: `true` iff `unsign` succeeds; catches
`BadSignatureError` (and subclasses) only, re-throwing everything else. -/
def Signer.validate (cfg : SignerCfg) (C : CryptoProvider) (E : B64Codec)
    (signedValue : Bytes) : Except Err Bool :=
  match Signer.unsign cfg C E signedValue with
  | .ok _ => .ok true
  | .error e => if e.isBadSignatureError then .ok false else .error e

end Itsdangerous

namespace Itsdangerous

/-- The last valid `Date` millisecond value: `new Date(ms)` is an Invalid
Date (its time value is `NaN`) exactly when `|ms| > 8,640,000,000,000,000`. -/
def maxDateMs : Nat := 8640000000000000

/-- `TimestampSigner.timestampToDate`: `new Date(timestamp * 1000)` with an
`Invalid Date` check throwing `TypeError`.  The result is the date's
millisecond value.  The timestamp is a non-negative integer because it is
decoded from `bufferToInt`. -/
def TimestampSigner.timestampToDate (timestamp : Nat) : Except Err Int :=
  if timestamp * 1000 ≤ maxDateMs then .ok ((timestamp * 1000 : Nat) : Int)
  else .error (.typeError "Invalid timestamp")

/-- `TimestampSigner.sign`: append `base64url(intToBuffer(getTimestamp()))`
after the value with a separator, then sign the combined blob with the base
signer: `value <sep> timestamp <sep> signature`.  `now` is the injected
clock (`getTimestamp()`, whole seconds since the epoch). -/
def TimestampSigner.sign (cfg : SignerCfg) (C : CryptoProvider) (E : B64Codec)
    (now : Nat) (value : Bytes) : Except Err Bytes := do
  let timestamp := E.enc (intToBuffer now)
  let newValue := value ++ cfg.separator ++ timestamp
  let sig ← Signer.getSignature cfg C E newValue
  .ok (newValue ++ cfg.separator ++ sig)

/-- `TimestampSigner.unsign` (`src/timed.ts`).  Steps, exactly as in the
source:
1. base `unsign`; a `BadSignatureError` is captured (its payload becomes
   `result`), other errors propagate;
2. split `result` at the last occurrence of the separator's first byte;
   when absent, throw `BadTimeSignatureError('Missing timestamp', result)`
   (note: unconditionally, even when a signature error was pending);
3. decode the timestamp via `bufferToInt(base64Decode(...))`; on failure
   throw `BadTimeSignatureError('Malformed timestamp', value)` (again
   unconditionally);
4. if a signature error was pending: convert the timestamp to a `Date`
   (`TypeError` becomes `'Malformed timestamp'`) and throw
   `BadTimeSignatureError(sigError.message, value, date)`;
5. if `maxAge` was given: `age = now - timestamp`; the timestamp is
   converted to a `Date` (a `TypeError` propagates), then
   `SignatureExpiredError` when `age > maxAge` or `age < 0`;
6. return `value`, or `[value, date]` when `returnTimestamp`.
The result pairs the value with the returned date (`none` when
`returnTimestamp` is `false`). -/
def TimestampSigner.unsign (cfg : SignerCfg) (C : CryptoProvider) (E : B64Codec)
    (now : Nat) (signedValue : Bytes) (maxAge : Option Int) (returnTimestamp : Bool) :
    Except Err (Bytes × Option Int) :=
  match
    (match Signer.unsign cfg C E signedValue with
     | .ok r => .ok (r, (none : Option Err))
     | .error e =>
       if e.isBadSignatureError then .ok (e.payloadB, some e) else .error e :
     Except Err (Bytes × Option Err))
  with
  | .error e => .error e
  | .ok (result, sigError) =>
    match lastSepIdx result cfg.separator with
    | none => .error (.badTimeSignature "Missing timestamp" result none)
    | some idx =>
      let value := result.take idx
      let timestampBuffer := result.drop (idx + cfg.separator.length)
      match (E.dec timestampBuffer).bind bufferToInt with
      | none => .error (.badTimeSignature "Malformed timestamp" value none)
      | some timestampInt =>
        match sigError with
        | some se =>
          match TimestampSigner.timestampToDate timestampInt with
          | .ok d => .error (.badTimeSignature se.msg value (some d))
          | .error _ => .error (.badTimeSignature "Malformed timestamp" value none)
        | none =>
          match
            (match maxAge with
             | none => .ok ()
             | some ma =>
               let age : Int := (now : Int) - (timestampInt : Int)
               match TimestampSigner.timestampToDate timestampInt with
               | .error e => .error e
               | .ok d =>
                 if age > ma then
                   .error (.signatureExpired
                     ("Signature age " ++ toString age ++ " > " ++ toString ma ++ " seconds")
                     value (some d))
                 else if age < 0 then
                   .error (.signatureExpired
                     ("Signature age " ++ toString age ++ " < 0 seconds") value (some d))
                 else .ok () :
             Except Err Unit)
          with
          | .error e => .error e
          | .ok _ =>
            if returnTimestamp then
              match TimestampSigner.timestampToDate timestampInt with
              | .ok d => .ok (value, some d)
              | .error e => .error e
            else .ok (value, none)

/-- `TimestampSigner.validate` (`src/timed.ts`): bare `catch` — every
error, of any type, yields `false`. -/
def TimestampSigner.validate (cfg : SignerCfg) (C : CryptoProvider) (E : B64Codec)
    (now : Nat) (signedValue : Bytes) (maxAge : Option Int) : Except Err Bool :=
  match TimestampSigner.unsign cfg C E now signedValue maxAge false with
  | .ok _ => .ok true
  | .error _ => .ok false

/-- The external serialization codec (`JSON` by default; the spec lists it
as an external collaborator).  `stringify` already includes the UTF-8
transcoding `stringifyPayload`/`parsePayload` apply around a text codec, so
it maps values straight to bytes; `parse` returns `none` where the codec
would throw. -/
structure SerCodec (α : Type) where
  stringify : α → Bytes
  parse : Bytes → Option α

/-- `Serializer.stringifyPayload`: serialize, UTF-8-encoding text output. -/
def Serializer.stringifyPayload {α : Type} (S : SerCodec α) (v : α) : Bytes :=
  S.stringify v

/-- `Serializer.parsePayload`: inverse; any underlying parse failure is
wrapped in `BadPayloadError`. -/
def Serializer.parsePayload {α : Type} (S : SerCodec α) (payload : Bytes) : Except Err α :=
  match S.parse payload with
  | some v => .ok v
  | none => .error (.badPayload "Failed to deserialize the data due to an error.")

/-- `Serializer.stringify`: `sign(stringifyPayload(value))` via the
configured signer. -/
def Serializer.stringify {α : Type} (cfg : SignerCfg) (C : CryptoProvider) (E : B64Codec)
    (S : SerCodec α) (v : α) : Except Err Bytes :=
  Signer.sign cfg C E (Serializer.stringifyPayload S v)

/-- `Serializer.parse`: `parsePayload(unsign(signed))`. -/
def Serializer.parse {α : Type} (cfg : SignerCfg) (C : CryptoProvider) (E : B64Codec)
    (S : SerCodec α) (signed : Bytes) : Except Err α := do
  let payload ← Signer.unsign cfg C E signed
  Serializer.parsePayload S payload

/-- The external DEFLATE codec (`pako` in `src/url-safe.ts`); `decompress`
returns `none` where `pako.inflate` would throw. -/
structure Zlib where
  compress : Bytes → Bytes
  decompress : Bytes → Option Bytes

/-- `encodePayload` (`src/url-safe.ts`): compress; keep the compressed form
only when `compressed.length < json.length - 1`; base64url-encode the
chosen bytes; prepend a literal `.` to the encoded text when compression
was chosen. -/
def encodePayload (Z : Zlib) (E : B64Codec) (json : Bytes) : Bytes :=
  let compressed := Z.compress json
  let isCompressed := (compressed.length : Int) < (json.length : Int) - 1
  let processedJson := if isCompressed then compressed else json
  let base64Payload := E.enc processedJson
  if isCompressed then strBytes "." ++ base64Payload else base64Payload

/-- `decodePayload` (`src/url-safe.ts`): strip a leading `.` marker (and
remember to decompress); base64url-decode; decompress when marked; each
failure is a distinct `BadPayloadError`. -/
def decodePayload (Z : Zlib) (E : B64Codec) (payload : Bytes) : Except Err Bytes :=
  let decompress := payload.head? == some 46
  let sliced := if decompress then payload.tail else payload
  match E.dec sliced with
  | none => .error (.badPayload "Could not base64-decode the payload due to an error")
  | some decodedPayload =>
    if decompress then
      match Z.decompress decodedPayload with
      | some x => .ok x
      | none => .error (.badPayload "Could not decompress the payload after decoding")
    else .ok decodedPayload

/-- `URLSafeSerializer.stringifyPayload`: the base payload run through
`encodePayload`. -/
def URLSafeSerializer.stringifyPayload {α : Type} (Z : Zlib) (E : B64Codec)
    (S : SerCodec α) (v : α) : Bytes :=
  encodePayload Z E (Serializer.stringifyPayload S v)

/-- `URLSafeSerializer.parsePayload`: `decodePayload` then the base
`parsePayload`. -/
def URLSafeSerializer.parsePayload {α : Type} (Z : Zlib) (E : B64Codec)
    (S : SerCodec α) (payload : Bytes) : Except Err α := do
  let json ← decodePayload Z E payload
  Serializer.parsePayload S json

/-- `URLSafeSerializer.stringify`. -/
def URLSafeSerializer.stringify {α : Type} (cfg : SignerCfg) (C : CryptoProvider)
    (E : B64Codec) (Z : Zlib) (S : SerCodec α) (v : α) : Except Err Bytes :=
  Signer.sign cfg C E (URLSafeSerializer.stringifyPayload Z E S v)

/-- `URLSafeSerializer.parse`. -/
def URLSafeSerializer.parse {α : Type} (cfg : SignerCfg) (C : CryptoProvider)
    (E : B64Codec) (Z : Zlib) (S : SerCodec α) (signed : Bytes) : Except Err α := do
  let payload ← Signer.unsign cfg C E signed
  URLSafeSerializer.parsePayload Z E S payload

/-- `TimedSerializer.stringify`: the inherited `Serializer.stringify`, with
the configured signer class being `TimestampSigner`. -/
def TimedSerializer.stringify {α : Type} (cfg : SignerCfg) (C : CryptoProvider)
    (E : B64Codec) (now : Nat) (S : SerCodec α) (v : α) : Except Err Bytes :=
  TimestampSigner.sign cfg C E now (Serializer.stringifyPayload S v)

/-- `TimedSerializer.parse`: `signer.unsign(signed, maxAge, true)` then
`parsePayload`; returns `[payload, timestamp]` when `returnTimestamp`. -/
def TimedSerializer.parse {α : Type} (cfg : SignerCfg) (C : CryptoProvider) (E : B64Codec)
    (now : Nat) (S : SerCodec α) (signed : Bytes) (maxAge : Option Int)
    (returnTimestamp : Bool) : Except Err (α × Option Int) := do
  let r ← TimestampSigner.unsign cfg C E now signed maxAge true
  let payload ← Serializer.parsePayload S r.1
  if returnTimestamp then .ok (payload, r.2) else .ok (payload, none)

/-- `URLSafeTimedSerializer.stringify`: `TimedSerializer.stringify` with
the URL-safe `stringifyPayload` override. -/
def URLSafeTimedSerializer.stringify {α : Type} (cfg : SignerCfg) (C : CryptoProvider)
    (E : B64Codec) (Z : Zlib) (now : Nat) (S : SerCodec α) (v : α) : Except Err Bytes :=
  TimestampSigner.sign cfg C E now (URLSafeSerializer.stringifyPayload Z E S v)

/-- `URLSafeTimedSerializer.parse`: `TimedSerializer.parse` with the
URL-safe `parsePayload` override. -/
def URLSafeTimedSerializer.parse {α : Type} (cfg : SignerCfg) (C : CryptoProvider)
    (E : B64Codec) (Z : Zlib) (now : Nat) (S : SerCodec α) (signed : Bytes)
    (maxAge : Option Int) (returnTimestamp : Bool) : Except Err (α × Option Int) := do
  let r ← TimestampSigner.unsign cfg C E now signed maxAge true
  let payload ← URLSafeSerializer.parsePayload Z E S r.1
  if returnTimestamp then .ok (payload, r.2) else .ok (payload, none)

end Itsdangerous

namespace Itsdangerous

/-- A concrete base64url-contract-satisfying codec used to instantiate the
abstract collaborator in witnesses: each byte `b` becomes `b` copies of
`a` (97) followed by one `b` (98); both output bytes are in the base64url
alphabet. -/
def unaryEncByte (b : Nat) : Bytes := List.replicate b 97 ++ [98]

/-- Encoder of the witness codec. -/
def unaryEnc (x : Bytes) : Bytes := (x.map unaryEncByte).flatten

/-- Decoder of the witness codec; `none` on any malformed input. -/
def unaryDec : Bytes → Option Bytes
  | [] => some []
  | 98 :: rest => (unaryDec rest).map (0 :: ·)
  | 97 :: rest =>
    match unaryDec rest with
    | some (b :: bs) => some ((b + 1) :: bs)
    | _ => none
  | _ => none

/-- The witness instantiation of the base64url collaborator. -/
def unaryB64 : B64Codec := ⟨unaryEnc, unaryDec⟩

/-- The witness instantiation of the crypto provider: hashing is the
identity on the data, HMAC is key-prepending. -/
def concatCrypto : CryptoProvider := ⟨fun _ data => data, fun _ key data => key ++ data⟩

/-- Witness signer configuration: one secret key `k` (107), the default
`.` separator, key derivation `none`, HMAC over `concatCrypto`. -/
def cfgW : SignerCfg :=
  { secretKeys := [[107]]
    separator := [46]
    salt := strBytes "salt"
    keyDerivation := "none"
    digestMethod := "D"
    algorithm := HMACAlgorithm concatCrypto "D" }

/-- Witness configuration with an unknown key-derivation mode (the
TypeScript enum is string-valued, so `'invalid'` reaches `deriveKey`'s
`default:` branch, as the repository's own tests exercise). -/
def cfgBadKd : SignerCfg := { cfgW with keyDerivation := "invalid" }

/-- Witness configuration with two secrets (oldest `[97]`, newest `[98]`). -/
def cfgRot : SignerCfg := { cfgW with secretKeys := [[97], [98]] }

/-- Witness compressor whose output is always the single byte `0`; its
decompressor inverts it on the four-zero payload used in the witnesses. -/
def constZlib : Zlib :=
  ⟨fun _ => [0], fun b => if b == [0] then some [0, 0, 0, 0] else none⟩

/-- Witness compressor that never shrinks (identity). -/
def idZlib : Zlib := ⟨fun x => x, fun x => some x⟩

/-- Witness serialization codec: values are byte lists, codec is the
identity (its `parse ∘ stringify = id` contract holds everywhere). -/
def idSerCodec : SerCodec (List Nat) := ⟨fun v => v, fun b => some b⟩

/-- The tail of `TimestampSigner.unsign` once a well-formed self-signed
token has been split and its timestamp decoded: the `maxAge` check
followed by the `returnTimestamp` choice, on value `v`, signing time `t0`
and clock `t1`.  `tsUnsign_of_sign` proves `unsign` on a token produced by
`sign` reduces to this. -/
def tsOutcome (v : Bytes) (t0 t1 : Nat) (maxAge : Option Int) (rt : Bool) :
    Except Err (Bytes × Option Int) :=
  match
    (match maxAge with
     | none => .ok ()
     | some ma =>
       let age : Int := (t1 : Int) - (t0 : Int)
       match TimestampSigner.timestampToDate t0 with
       | .error e => .error e
       | .ok d =>
         if age > ma then
           .error (.signatureExpired
             ("Signature age " ++ toString age ++ " > " ++ toString ma ++ " seconds")
             v (some d))
         else if age < 0 then
           .error (.signatureExpired
             ("Signature age " ++ toString age ++ " < 0 seconds") v (some d))
         else .ok () :
     Except Err Unit)
  with
  | .error e => .error e
  | .ok _ =>
    if rt then
      match TimestampSigner.timestampToDate t0 with
      | .ok d => .ok (v, some d)
      | .error e => .error e
    else .ok (v, none)

end Itsdangerous

namespace Itsdangerous

theorem beBytes_lt (k n : Nat) : ∀ x ∈ beBytes k n, x < 256 := by
  induction k generalizing n with
  | zero => intro x hx; simp [beBytes] at hx
  | succ k ih =>
    intro x hx
    simp only [beBytes, List.mem_append, List.mem_singleton] at hx
    rcases hx with h | h
    · exact ih (n / 256) x h
    · subst h; exact Nat.mod_lt _ (by norm_num)

theorem beFold_append (u v : Bytes) :
    beFold (u ++ v) = v.foldl (fun a x => a * 256 + x % 256) (beFold u) := by
  simp [beFold, List.foldl_append]

theorem beFold_beBytes (k n : Nat) : beFold (beBytes k n) = n % 256 ^ k := by
  induction k generalizing n with
  | zero => simp [beBytes, beFold, Nat.mod_one]
  | succ k ih =>
    have h1 : beFold (beBytes (k + 1) n)
        = beFold (beBytes k (n / 256)) * 256 + n % 256 % 256 := by
      simp [beBytes, beFold_append, beFold]
    rw [h1, ih, Nat.mod_mod_of_dvd _ dvd_rfl]
    calc n / 256 % 256 ^ k * 256 + n % 256
        = n % 256 + 256 * (n / 256 % 256 ^ k) := by ring
      _ = n % (256 * 256 ^ k) := Nat.mod_mul.symm
      _ = n % 256 ^ (k + 1) := by rw [pow_succ, mul_comm]

theorem beFold_dropWhile_zero (b : Bytes) :
    beFold (b.dropWhile (· == 0)) = beFold b := by
  induction b with
  | nil => rfl
  | cons a l ih =>
    rcases eq_or_ne a 0 with h | h
    · subst h
      rw [List.dropWhile_cons]
      simpa [beFold] using ih
    · rw [List.dropWhile_cons]
      simp [h, beFold]

theorem dropWhile_head_ne_zero (b : Bytes) (a : Nat) (t : Bytes)
    (h : b.dropWhile (· == 0) = a :: t) : a ≠ 0 := by
  induction b with
  | nil => simp [List.dropWhile] at h
  | cons x l ih =>
    rw [List.dropWhile_cons] at h
    rcases eq_or_ne x 0 with hx | hx
    · subst hx
      simp only [beq_self_eq_true, if_true] at h
      exact ih h
    · simp only [beq_eq_false_iff_ne.mpr hx, Bool.false_eq_true, if_false] at h
      intro ha
      exact hx (by rw [← List.cons.injEq a t x l |>.mp h.symm |>.1, ha])

theorem beBytes_length (k n : Nat) : (beBytes k n).length = k := by
  induction k generalizing n with
  | zero => rfl
  | succ k ih => simp [beBytes, ih]

theorem dropWhile_length_le (p : Nat → Bool) (b : Bytes) :
    (b.dropWhile p).length ≤ b.length := by
  induction b with
  | nil => simp
  | cons a l ih =>
    by_cases h : p a
    · simp only [List.dropWhile, h]
      exact Nat.le_succ_of_le ih
    · simp [List.dropWhile, h]

theorem bufferToInt_intToBuffer (n : Nat) (h : n < 2 ^ 64) :
    bufferToInt (intToBuffer n) = some n := by
  have hlen : (intToBuffer n).length ≤ 8 := by
    have := dropWhile_length_le (· == 0) (beBytes 8 (n % 2 ^ 64))
    simpa [intToBuffer, beBytes_length] using this
  have hval : beFold (intToBuffer n) = n := by
    have h1 := beFold_dropWhile_zero (beBytes 8 (n % 2 ^ 64))
    have h2 := beFold_beBytes 8 (n % 2 ^ 64)
    have h3 : (256 : Nat) ^ 8 = 2 ^ 64 := by norm_num
    rw [intToBuffer, h1, h2, h3, Nat.mod_mod_of_dvd _ dvd_rfl, Nat.mod_eq_of_lt h]
  rw [bufferToInt, if_neg (by omega)]
  exact congrArg some hval


theorem lastIdx?_eq_none_of_not_mem (l : Bytes) (x : Nat) (h : x ∉ l) :
    lastIdx? l x = none := by
  induction l with
  | nil => rfl
  | cons a t ih =>
    have hx : x ∉ t := fun hm => h (List.mem_cons_of_mem a hm)
    have ha : a ≠ x := fun he => h (he ▸ List.mem_cons_self a t)
    simp [lastIdx?, ih hx, ha]

theorem lastIdx?_append_sep (v w : Bytes) (s : Nat) (h : s ∉ w) :
    lastIdx? (v ++ s :: w) s = some v.length := by
  induction v with
  | nil => simp [lastIdx?, lastIdx?_eq_none_of_not_mem w s h]
  | cons a t ih => simp [lastIdx?, ih]

theorem take_append_sep (v w : Bytes) (s : Nat) :
    (v ++ s :: w).take v.length = v := by
  exact List.take_left v (s :: w)

theorem drop_append_sep (v w : Bytes) (s : Nat) :
    (v ++ s :: w).drop (v.length + 1) = w := by
  have h : v ++ s :: w = (v ++ [s]) ++ w := by simp
  have h2 : (v ++ [s]).length = v.length + 1 := by simp
  rw [h, ← h2, List.drop_left]

@[simp]
theorem except_bind_ok {ε α β : Type} (a : α) (f : α → Except ε β) :
    (Except.ok a >>= f : Except ε β) = f a := rfl

@[simp]
theorem except_bind_error {ε α β : Type} (e : ε) (f : α → Except ε β) :
    (Except.error e >>= f : Except ε β) = Except.error e := rfl

theorem kdKnown_of_deriveKey_ok (cfg : SignerCfg) (C : CryptoProvider)
    (sk : Option Bytes) (dk : Bytes) (h : Signer.deriveKey cfg C sk = .ok dk) :
    kdKnown cfg.keyDerivation := by
  unfold Signer.deriveKey at h
  split at h
  · exact Or.inl (by assumption)
  · exact Or.inr (Or.inl (by assumption))
  · exact Or.inr (Or.inr (Or.inl (by assumption)))
  · exact Or.inr (Or.inr (Or.inr (by assumption)))
  · exact absurd h (by simp)

theorem deriveKey_some_ok_of_known (cfg : SignerCfg) (C : CryptoProvider) (k : Bytes)
    (hkd : kdKnown cfg.keyDerivation) :
    ∃ dk, Signer.deriveKey cfg C (some k) = .ok dk := by
  unfold Signer.deriveKey
  rcases hkd with h | h | h | h <;> rw [h] <;> exact ⟨_, rfl⟩

theorem deriveKey_none_eq_some_last (cfg : SignerCfg) (C : CryptoProvider) (klast : Bytes)
    (h : cfg.secretKeys.getLast? = some klast) :
    Signer.deriveKey cfg C none = Signer.deriveKey cfg C (some klast) := by
  unfold Signer.deriveKey
  simp only [Option.or, h]

theorem deriveKey_ignores_keys_for_some (cfg : SignerCfg) (ks2 : List Bytes)
    (C : CryptoProvider) (k : Bytes) :
    Signer.deriveKey { cfg with secretKeys := ks2 } C (some k)
      = Signer.deriveKey cfg C (some k) := rfl

theorem verifyLoop_ok_of_mem (cfg : SignerCfg) (C : CryptoProvider)
    (value dsig dk : Bytes) (k : Bytes) (keys : List Bytes)
    (hkd : kdKnown cfg.keyDerivation) (hmem : k ∈ keys)
    (hdk : Signer.deriveKey cfg C (some k) = .ok dk)
    (hver : cfg.algorithm.verify dk value dsig = true) :
    Signer.verifyLoop cfg C value dsig keys = .ok true := by
  induction keys with
  | nil => cases hmem
  | cons a rest ih =>
    obtain ⟨dka, hdka⟩ := deriveKey_some_ok_of_known cfg C a hkd
    by_cases hv : cfg.algorithm.verify dka value dsig = true
    · simp [Signer.verifyLoop, hdka, hv]
    · rcases List.mem_cons.mp hmem with he | hm
      · subst he
        rw [hdka] at hdk
        cases hdk
        exact absurd hver hv
      · simp [Signer.verifyLoop, hdka, hv, ih hm]


theorem unsign_sign_rotated (cfg : SignerCfg) (ks2 : List Bytes) (C : CryptoProvider)
    (E : B64Codec) (s : Nat) (v t klast : Bytes)
    (hE : E.Lawful) (hsep : cfg.separator = [s]) (hs : s ∉ b64Alphabet)
    (hlast : cfg.secretKeys.getLast? = some klast) (hmem : klast ∈ ks2)
    (hsign : Signer.sign cfg C E v = .ok t) :
    Signer.unsign { cfg with secretKeys := ks2 } C E t = .ok v := by
  unfold Signer.sign at hsign
  cases hgs : Signer.getSignature cfg C E v with
  | error e => rw [hgs] at hsign; simp at hsign
  | ok sig =>
    rw [hgs] at hsign
    simp only [except_bind_ok] at hsign
    unfold Signer.getSignature at hgs
    cases hdk : Signer.deriveKey cfg C none with
    | error e => rw [hdk] at hgs; simp at hgs
    | ok dk0 =>
      rw [hdk] at hgs
      simp only [except_bind_ok] at hgs
      cases hmac : cfg.algorithm.getSignature dk0 v with
      | none => rw [hmac] at hgs; simp at hgs
      | some mac =>
        rw [hmac] at hgs
        simp only [Except.ok.injEq] at hgs
        have hsig : sig = E.enc mac := hgs.symm
        have ht : t = v ++ s :: E.enc mac := by
          have := hsign
          simp only [Except.ok.injEq] at this
          rw [← this, hsig, hsep]
          simp
        have hsnotin : s ∉ E.enc mac := fun hin => hs (hE.2 mac s hin)
        have hkd : kdKnown cfg.keyDerivation := kdKnown_of_deriveKey_ok cfg C none dk0 hdk
        have hdk2 : Signer.deriveKey { cfg with secretKeys := ks2 } C (some klast)
            = .ok dk0 := by
          rw [deriveKey_ignores_keys_for_some,
            ← deriveKey_none_eq_some_last cfg C klast hlast]
          exact hdk
        have hver : ({ cfg with secretKeys := ks2 } : SignerCfg).algorithm.verify dk0 v mac
            = true := by
          show cfg.algorithm.verify dk0 v mac = true
          unfold SigningAlgorithm.verify
          rw [hmac]
          simp
        have hvs : Signer.verifySignature { cfg with secretKeys := ks2 } C E v (E.enc mac)
            = .ok true := by
          unfold Signer.verifySignature
          rw [show E.dec (E.enc mac) = some mac from hE.1 mac]
          exact verifyLoop_ok_of_mem { cfg with secretKeys := ks2 } C v mac dk0 klast ks2
            hkd hmem hdk2 hver
        have e1 : lastSepIdx t ({ cfg with secretKeys := ks2 } : SignerCfg).separator
            = some v.length := by
          show lastSepIdx t cfg.separator = some v.length
          rw [hsep, ht]
          exact lastIdx?_append_sep v (E.enc mac) s hsnotin
        have e2 : t.take v.length = v := by
          rw [ht]; exact take_append_sep v (E.enc mac) s
        have e3 : t.drop (v.length + ({ cfg with secretKeys := ks2 } : SignerCfg).separator.length)
            = E.enc mac := by
          show t.drop (v.length + cfg.separator.length) = E.enc mac
          rw [hsep, ht]
          exact drop_append_sep v (E.enc mac) s
        unfold Signer.unsign
        rw [e1]
        simp only [e2, e3, hvs, except_bind_ok, if_true]


theorem unaryDec_encByte (b : Nat) (t : Bytes) :
    unaryDec (unaryEncByte b ++ t) = (unaryDec t).map (b :: ·) := by
  induction b with
  | zero => simp [unaryEncByte, unaryDec]
  | succ b ih =>
    have h : unaryEncByte (b + 1) ++ t = 97 :: (unaryEncByte b ++ t) := by
      simp [unaryEncByte, List.replicate_succ]
    rw [h]
    show (match unaryDec (unaryEncByte b ++ t) with
      | some (x :: bs) => some ((x + 1) :: bs)
      | _ => none) = (unaryDec t).map ((b + 1) :: ·)
    rw [ih]
    cases unaryDec t with
    | none => rfl
    | some l => rfl

theorem unaryDec_unaryEnc (x : Bytes) : unaryDec (unaryEnc x) = some x := by
  induction x with
  | nil => rfl
  | cons b bs ih =>
    have h : unaryEnc (b :: bs) = unaryEncByte b ++ unaryEnc bs := by
      simp [unaryEnc]
    rw [h, unaryDec_encByte, ih]
    rfl

theorem unaryEnc_alphabet (x : Bytes) : ∀ b ∈ unaryEnc x, b ∈ b64Alphabet := by
  intro b hb
  have hmem : b = 97 ∨ b = 98 := by
    simp only [unaryEnc, List.mem_flatten, List.mem_map] at hb
    obtain ⟨l, ⟨c, _, hcl⟩, hbl⟩ := hb
    rw [← hcl] at hbl
    simp only [unaryEncByte, List.mem_append, List.mem_replicate,
      List.mem_singleton] at hbl
    rcases hbl with h | h
    · exact Or.inl h.2
    · exact Or.inr h
  rcases hmem with h | h <;> subst h <;> decide

theorem unaryB64_lawful : unaryB64.Lawful :=
  ⟨unaryDec_unaryEnc, unaryEnc_alphabet⟩

end Itsdangerous

namespace Itsdangerous

theorem mem_of_getLastSome {α : Type} {l : List α} {a : α} (h : l.getLast? = some a) :
    a ∈ l := by
  induction l with
  | nil => simp [List.getLast?] at h
  | cons x t ih =>
    cases t with
    | nil =>
      simp [List.getLast?] at h
      simp [h]
    | cons y t' =>
      rw [List.getLast?_cons_cons] at h
      exact List.mem_cons_of_mem x (ih h)

theorem listIncludes_singleton_iff (l : Bytes) (c : Nat) :
    listIncludes l [c] = true ↔ c ∈ l := by
  induction l with
  | nil => simp [listIncludes, List.isPrefixOf]
  | cons a t ih =>
    rw [listIncludes]
    simp only [List.isPrefixOf, Bool.or_eq_true, List.mem_cons]
    constructor
    · intro h
      rcases h with h | h
      · simp only [Bool.and_eq_true, beq_iff_eq] at h
        exact Or.inl h.1
      · exact Or.inr (ih.mp h)
    · intro h
      rcases h with h | h
      · subst h
        simp [List.isPrefixOf]
      · exact Or.inr (ih.mpr h)

/-- **C9.** For every `n` with `0 ≤ n ≤ 2^64 - 1`,
`bufferToInt (intToBuffer n) = n`; `intToBuffer` is the big-endian
encoding with every leading zero byte stripped (its big-endian value is
`n` and it never starts with a zero byte), and `intToBuffer 0` is the
empty byte sequence. -/
theorem c9_int_codec_roundtrip (n : Nat) (h : n < 2 ^ 64) :
    bufferToInt (intToBuffer n) = some n ∧ beFold (intToBuffer n) = n ∧
      (∀ t, intToBuffer n ≠ 0 :: t) ∧ intToBuffer 0 = [] := by
  refine ⟨bufferToInt_intToBuffer n h, ?_, ?_, by decide⟩
  · rw [intToBuffer, beFold_dropWhile_zero, beFold_beBytes]
    have h3 : (256 : Nat) ^ 8 = 2 ^ 64 := by norm_num
    rw [h3, Nat.mod_mod_of_dvd _ dvd_rfl, Nat.mod_eq_of_lt h]
  · intro t hc
    exact dropWhile_head_ne_zero _ 0 t hc rfl

/-- Witness for C9 at the largest 64-bit value (and, via the last
conjunct, at zero). -/
theorem c9_int_codec_roundtrip_witness :
    (18446744073709551615 : Nat) < 2 ^ 64 ∧
      bufferToInt (intToBuffer 18446744073709551615) = some 18446744073709551615 ∧
      intToBuffer 0 = [] :=
  ⟨by norm_num, (c9_int_codec_roundtrip 18446744073709551615 (by norm_num)).1,
    (c9_int_codec_roundtrip 18446744073709551615 (by norm_num)).2.2.2⟩

/-- **C7 counterexample.** The separator `'a:'` (bytes `[97, 58]`) contains
the alphabet character `a`, so by the claim construction should throw
`TypeError`; but `BASE64_ALPHABET.includes('a:')` is a substring test and
is `false`, so the constructor succeeds. -/
theorem c7_counterexample :
    (97 ∈ ([97, 58] : Bytes) ∧ 97 ∈ b64Alphabet) ∧
      ∃ cfg, Signer.make concatCrypto [[107]] defaultSignerSalt [97, 58] none none none
        = .ok cfg := by
  exact ⟨⟨by decide, by decide⟩, ⟨_, rfl⟩⟩

/-- **C7 amended.** Construction throws `TypeError` iff the separator,
decoded as text, is a contiguous substring of the base64url alphabet
string (`String.prototype.includes`).  For single-character separators this
coincides with alphabet membership; the empty separator is always rejected
(`''` is a substring of every string); a multi-character separator
containing a non-alphabet character is accepted even when it also contains
alphabet characters. -/
theorem c7_amended (C : CryptoProvider) (keys : List Bytes) (salt : Bytes)
    (kd dm : Option String) (alg : Option SigningAlgorithm) :
    (∀ c : Nat,
      (∃ e, Signer.make C keys salt [c] kd dm alg = .error e) ↔ c ∈ b64Alphabet) ∧
    (∃ e, Signer.make C keys salt [] kd dm alg = .error e) ∧
    ∀ sep : Bytes,
      (∃ e, Signer.make C keys salt sep kd dm alg = .error e)
        ↔ listIncludes b64Alphabet sep = true := by
  have key : ∀ sep : Bytes,
      (∃ e, Signer.make C keys salt sep kd dm alg = .error e)
        ↔ listIncludes b64Alphabet sep = true := by
    intro sep
    unfold Signer.make
    by_cases h : listIncludes b64Alphabet sep = true
    · simp [h]
    · simp [h]
  exact ⟨fun c => (key [c]).trans (listIncludes_singleton_iff b64Alphabet c),
    (key []).mpr (by decide), key⟩

/-- Witness for C7 amended: a single alphabet character (`a`) is rejected,
a single non-alphabet character (`:`) is accepted. -/
theorem c7_amended_witness :
    (∃ e, Signer.make concatCrypto [[107]] defaultSignerSalt [97] none none none
      = .error e) ∧
    ¬∃ e, Signer.make concatCrypto [[107]] defaultSignerSalt [58] none none none
      = .error e := by
  constructor
  · exact ((c7_amended concatCrypto [[107]] defaultSignerSalt none none none).1 97).mpr
      (by decide)
  · intro hc
    exact absurd
      (((c7_amended concatCrypto [[107]] defaultSignerSalt none none none).1 58).mp hc)
      (by decide)

end Itsdangerous

namespace Itsdangerous

/-- **C8 counterexample.** With the single-byte compressor, the payload
`[0, 0]` compresses to exactly 1 byte smaller — "at least 1 byte smaller"
holds — yet `encodePayload` keeps the uncompressed form with no `.`
marker, because the source requires `compressed.length < json.length - 1`. -/
theorem c8_counterexample :
    (constZlib.compress [0, 0]).length + 1 ≤ ([0, 0] : Bytes).length ∧
      encodePayload constZlib unaryB64 [0, 0] = unaryB64.enc [0, 0] ∧
      encodePayload constZlib unaryB64 [0, 0]
        ≠ strBytes "." ++ unaryB64.enc (constZlib.compress [0, 0]) := by
  refine ⟨by decide, by decide, by decide⟩

/-- **C8 amended.** The compressed form is chosen (and the literal `.`
marker prepended to the base64url-encoded text, after encoding) iff the
compressed form is at least **2** bytes smaller than the payload
(`compressed.length < json.length - 1`); otherwise the payload is encoded
unchanged with no marker. -/
theorem c8_amended (Z : Zlib) (E : B64Codec) (json : Bytes) :
    ((Z.compress json).length + 2 ≤ json.length →
      encodePayload Z E json = strBytes "." ++ E.enc (Z.compress json)) ∧
    (json.length ≤ (Z.compress json).length + 1 →
      encodePayload Z E json = E.enc json) := by
  constructor
  · intro h
    have hc : ((Z.compress json).length : Int) < (json.length : Int) - 1 := by omega
    simp only [encodePayload]
    rw [if_pos hc, if_pos hc]
  · intro h
    have hc : ¬((Z.compress json).length : Int) < (json.length : Int) - 1 := by omega
    simp only [encodePayload]
    rw [if_neg hc, if_neg hc]

/-- Witness for C8 amended: compression triggered on a 3-byte payload that
compresses to 1 byte, not triggered under the identity compressor. -/
theorem c8_amended_witness :
    ((constZlib.compress [0, 0, 0]).length + 2 ≤ ([0, 0, 0] : Bytes).length ∧
      encodePayload constZlib unaryB64 [0, 0, 0]
        = strBytes "." ++ unaryB64.enc (constZlib.compress [0, 0, 0])) ∧
    (([5] : Bytes).length ≤ (idZlib.compress [5]).length + 1 ∧
      encodePayload idZlib unaryB64 [5] = unaryB64.enc [5]) :=
  ⟨⟨by decide, (c8_amended constZlib unaryB64 [0, 0, 0]).1 (by decide)⟩,
    ⟨by decide, (c8_amended idZlib unaryB64 [5]).2 (by decide)⟩⟩

/-- **C2 (code bug).** Evaluating the `Buffer` implementation of
`Signer.verifySignature` (`src/signer.ts`, which iterates
`this.secretKeys.reverse()`) on a two-key instance: after one call, the
`secretKeys` field is reversed in place — the configuration is **not**
identical before and after the call, contradicting the claim (and the
field's own documentation, which promises oldest→newest order with the
newest key used for signing). -/
theorem c2_verify_mutates_secretKeys :
    cfgRot.secretKeys = [[97], [98]] ∧
      (SignerBuf.verifySignature cfgRot concatCrypto unaryB64 [118] [98]).2.secretKeys
        = [[98], [97]] ∧
      (SignerBuf.verifySignature cfgRot concatCrypto unaryB64 [118] [98]).2.secretKeys
        ≠ cfgRot.secretKeys := by
  refine ⟨by decide, by decide, by decide⟩

/-- **C5 (code bug).** An input whose base `unsign` fails with
`BadSignatureError` and whose timestamp segment fails to decode: the
`Uint8Array` implementation (`src/timed.ts`) throws
`BadTimeSignatureError('Malformed timestamp')`, whereas the claim (and the
sibling `Buffer` implementation, which swallows the decode failure with
`catch {}`) requires `BadTimeSignatureError(sigError.message, value,
undefined)`. -/
theorem c5_malformed_timestamp_with_pending_sig_error :
    Signer.unsign cfgW concatCrypto unaryB64 [97, 46, 99, 46, 99]
        = .error (.badSignature "Invalid signature for the provided value." [97, 46, 99]) ∧
      TimestampSigner.unsign cfgW concatCrypto unaryB64 1 [97, 46, 99, 46, 99] none false
        = .error (.badTimeSignature "Malformed timestamp" [97] none) ∧
      Err.badTimeSignature "Malformed timestamp" [97] none
        ≠ Err.badTimeSignature "Invalid signature for the provided value." [97] none := by
  refine ⟨by decide, by decide, by decide⟩

/-- **C6 (code bug).** An input containing no separator at all: the base
`unsign` fails with `BadSignatureError`, and the claim (with the sibling
`Buffer` implementation, `if (sigError != null) throw sigError`) requires
that pending error to be re-raised; the `Uint8Array` implementation
(`src/timed.ts`) instead throws `BadTimeSignatureError('Missing
timestamp')` unconditionally. -/
theorem c6_missing_timestamp_with_pending_sig_error :
    Signer.unsign cfgW concatCrypto unaryB64 [97]
        = .error (.badSignature "Separator \x27.\x27 not found in value" [97]) ∧
      TimestampSigner.unsign cfgW concatCrypto unaryB64 1 [97] none false
        = .error (.badTimeSignature "Missing timestamp" [97] none) ∧
      Err.badTimeSignature "Missing timestamp" [97] none
        ≠ Err.badSignature "Separator \x27.\x27 not found in value" [97] := by
  refine ⟨by decide, by decide, by decide⟩

/-- **C10.** `TimestampSigner.validate` never throws — it returns a value
for every input and returns `false` whenever its `unsign` raises any error
whatsoever — while the base `Signer.validate` suppresses only
`BadSignatureError` (and its subclasses) and re-raises every other error. -/
theorem c10_validate_error_policy (cfg : SignerCfg) (C : CryptoProvider) (E : B64Codec)
    (now : Nat) (sv : Bytes) (maxAge : Option Int) :
    (∃ b, TimestampSigner.validate cfg C E now sv maxAge = .ok b) ∧
    (∀ e, TimestampSigner.unsign cfg C E now sv maxAge false = .error e →
      TimestampSigner.validate cfg C E now sv maxAge = .ok false) ∧
    (∀ e, Signer.unsign cfg C E sv = .error e → e.isBadSignatureError = false →
      Signer.validate cfg C E sv = .error e) ∧
    (∀ e, Signer.unsign cfg C E sv = .error e → e.isBadSignatureError = true →
      Signer.validate cfg C E sv = .ok false) := by
  refine ⟨?_, ?_, ?_, ?_⟩
  · unfold TimestampSigner.validate
    cases TimestampSigner.unsign cfg C E now sv maxAge false with
    | ok r => exact ⟨true, rfl⟩
    | error e => exact ⟨false, rfl⟩
  · intro e he
    unfold TimestampSigner.validate
    rw [he]
  · intro e he hnb
    simp [Signer.validate, he, hnb]
  · intro e he hb
    simp [Signer.validate, he, hb]

/-- Witness for C10: with an unknown key-derivation mode (`'invalid'`),
`unsign` throws `TypeError`; `TimestampSigner.validate` returns `false`
while `Signer.validate` re-raises the `TypeError`. -/
theorem c10_validate_error_policy_witness :
    Signer.unsign cfgBadKd concatCrypto unaryB64 [118, 46, 98]
        = .error (.typeError "Invalid key derivation method") ∧
      (Err.typeError "Invalid key derivation method").isBadSignatureError = false ∧
      TimestampSigner.validate cfgBadKd concatCrypto unaryB64 1 [118, 46, 98] none
        = .ok false ∧
      Signer.validate cfgBadKd concatCrypto unaryB64 [118, 46, 98]
        = .error (.typeError "Invalid key derivation method") := by
  refine ⟨by decide, by decide, ?_, ?_⟩
  · exact (c10_validate_error_policy cfgBadKd concatCrypto unaryB64 1 [118, 46, 98]
      none).2.1 (.typeError "Invalid key derivation method") (by decide)
  · exact (c10_validate_error_policy cfgBadKd concatCrypto unaryB64 1 [118, 46, 98]
      none).2.2.1 (.typeError "Invalid key derivation method") (by decide) (by decide)

end Itsdangerous

namespace Itsdangerous

/-- **C3.** Key rotation: a token signed by a Signer configured with
`[k1, k2]` (the newest key `k2` signs) unsigns successfully both on
`[k1, k2]` and on `[k2]` alone; a token signed with `[k1]` alone unsigns
successfully on `[k1, k2]` — same salt, separator, key-derivation mode,
digest and algorithm throughout, for any lawful base64 collaborator and a
single-byte non-alphabet separator. -/
theorem c3_key_rotation (base : SignerCfg) (C : CryptoProvider) (E : B64Codec) (s : Nat)
    (k1 k2 v : Bytes) (hE : E.Lawful) (hsep : base.separator = [s])
    (hs : s ∉ b64Alphabet) :
    (∀ t, Signer.sign { base with secretKeys := [k1, k2] } C E v = .ok t →
      Signer.unsign { base with secretKeys := [k1, k2] } C E t = .ok v ∧
      Signer.unsign { base with secretKeys := [k2] } C E t = .ok v) ∧
    (∀ t, Signer.sign { base with secretKeys := [k1] } C E v = .ok t →
      Signer.unsign { base with secretKeys := [k1, k2] } C E t = .ok v) := by
  constructor
  · intro t hsig
    constructor
    · exact unsign_sign_rotated { base with secretKeys := [k1, k2] } [k1, k2] C E s v t k2
        hE hsep hs (by simp) (by simp) hsig
    · exact unsign_sign_rotated { base with secretKeys := [k1, k2] } [k2] C E s v t k2
        hE hsep hs (by simp) (by simp) hsig
  · intro t hsig
    exact unsign_sign_rotated { base with secretKeys := [k1] } [k1, k2] C E s v t k1
      hE hsep hs (by simp) (by simp) hsig

/-- Witness for C3: concrete keys `[1]`, `[2]`, value `[5]`, the
`concatCrypto` provider and the lawful unary codec; the two tokens are the
concrete byte lists `sign` produces. -/
theorem c3_key_rotation_witness :
    (46 ∉ b64Alphabet) ∧
    (Signer.unsign { cfgW with secretKeys := [[1], [2]] } concatCrypto unaryB64
        [5, 46, 97, 97, 98, 97, 97, 97, 97, 97, 98] = .ok [5] ∧
      Signer.unsign { cfgW with secretKeys := [[2]] } concatCrypto unaryB64
        [5, 46, 97, 97, 98, 97, 97, 97, 97, 97, 98] = .ok [5]) ∧
    Signer.unsign { cfgW with secretKeys := [[1], [2]] } concatCrypto unaryB64
        [5, 46, 97, 98, 97, 97, 97, 97, 97, 98] = .ok [5] := by
  refine ⟨by decide, ?_, ?_⟩
  · exact (c3_key_rotation cfgW concatCrypto unaryB64 46 [1] [2] [5] unaryB64_lawful rfl
      (by decide)).1 [5, 46, 97, 97, 98, 97, 97, 97, 97, 97, 98] (by decide)
  · exact (c3_key_rotation cfgW concatCrypto unaryB64 46 [1] [2] [5] unaryB64_lawful rfl
      (by decide)).2 [5, 46, 97, 98, 97, 97, 97, 97, 97, 98] (by decide)

end Itsdangerous

namespace Itsdangerous

theorem t0_lt_two_pow_64_of_valid (t0 : Nat) (h : t0 * 1000 ≤ maxDateMs) :
    t0 < 2 ^ 64 := by
  have h64 : (2 : Nat) ^ 64 = 18446744073709551616 := by norm_num
  have hm : maxDateMs = 8640000000000000 := rfl
  omega

theorem tsUnsign_of_sign (cfg : SignerCfg) (C : CryptoProvider) (E : B64Codec) (s : Nat)
    (v token : Bytes) (t0 t1 : Nat) (maxAge : Option Int) (rt : Bool) (klast : Bytes)
    (hE : E.Lawful) (hsep : cfg.separator = [s]) (hs : s ∉ b64Alphabet)
    (hlast : cfg.secretKeys.getLast? = some klast) (ht064 : t0 < 2 ^ 64)
    (hsign : TimestampSigner.sign cfg C E t0 v = .ok token) :
    TimestampSigner.unsign cfg C E t1 token maxAge rt = tsOutcome v t0 t1 maxAge rt := by
  simp only [TimestampSigner.sign] at hsign
  cases hgs : Signer.getSignature cfg C E (v ++ cfg.separator ++ E.enc (intToBuffer t0)) with
  | error e => rw [hgs] at hsign; simp at hsign
  | ok sigB =>
    rw [hgs] at hsign
    simp only [except_bind_ok, Except.ok.injEq] at hsign
    have hbase_sign :
        Signer.sign cfg C E (v ++ cfg.separator ++ E.enc (intToBuffer t0)) = .ok token := by
      unfold Signer.sign
      rw [hgs]
      simp only [except_bind_ok]
      rw [hsign]
    have hbase : Signer.unsign cfg C E token
        = .ok (v ++ cfg.separator ++ E.enc (intToBuffer t0)) :=
      unsign_sign_rotated cfg cfg.secretKeys C E s
        (v ++ cfg.separator ++ E.enc (intToBuffer t0)) token klast hE hsep hs hlast
        (mem_of_getLastSome hlast) hbase_sign
    have hsnotin : s ∉ E.enc (intToBuffer t0) :=
      fun hin => hs (hE.2 (intToBuffer t0) s hin)
    have hnv : v ++ cfg.separator ++ E.enc (intToBuffer t0)
        = v ++ s :: E.enc (intToBuffer t0) := by
      rw [hsep]; simp
    have e1 : lastSepIdx (v ++ cfg.separator ++ E.enc (intToBuffer t0)) cfg.separator
        = some v.length := by
      rw [hnv, hsep]
      show lastIdx? (v ++ s :: E.enc (intToBuffer t0)) s = some v.length
      exact lastIdx?_append_sep v (E.enc (intToBuffer t0)) s hsnotin
    have e2 : (v ++ cfg.separator ++ E.enc (intToBuffer t0)).take v.length = v := by
      rw [hnv]; exact take_append_sep v (E.enc (intToBuffer t0)) s
    have e3 : (v ++ cfg.separator ++ E.enc (intToBuffer t0)).drop
        (v.length + cfg.separator.length) = E.enc (intToBuffer t0) := by
      rw [hnv, hsep]
      show (v ++ s :: E.enc (intToBuffer t0)).drop (v.length + 1) = E.enc (intToBuffer t0)
      exact drop_append_sep v (E.enc (intToBuffer t0)) s
    have e4 : (E.dec (E.enc (intToBuffer t0))).bind bufferToInt = some t0 := by
      rw [hE.1]
      show bufferToInt (intToBuffer t0) = some t0
      exact bufferToInt_intToBuffer t0 ht064
    simp only [TimestampSigner.unsign, hbase, Err.isBadSignatureError, e1, e2, e3, e4]
    rfl

end Itsdangerous

namespace Itsdangerous

/-- **C4.** For a token produced by `TimestampSigner.sign` at time `t0`
(valid as a `Date`) and checked by `unsign` with `maxAge = m` at time
`t1`, with `age = t1 - t0`: if `age > m`, `unsign` fails with
`SignatureExpiredError` whose message is
`Signature age {age} > {maxAge} seconds`; if `age < 0`, it fails with
`SignatureExpiredError` whose message is `Signature age {age} < 0
seconds`; if `0 ≤ age ≤ m`, it returns the original value. -/
theorem c4_timestamp_expiry (cfg : SignerCfg) (C : CryptoProvider) (E : B64Codec)
    (s : Nat) (v token : Bytes) (t0 t1 : Nat) (m : Int) (klast : Bytes)
    (hE : E.Lawful) (hsep : cfg.separator = [s]) (hs : s ∉ b64Alphabet)
    (hlast : cfg.secretKeys.getLast? = some klast) (ht0 : t0 * 1000 ≤ maxDateMs)
    (hm : 0 ≤ m)
    (hsign : TimestampSigner.sign cfg C E t0 v = .ok token) :
    ((t1 : Int) - (t0 : Int) > m →
      TimestampSigner.unsign cfg C E t1 token (some m) false
        = .error (.signatureExpired
            ("Signature age " ++ toString ((t1 : Int) - (t0 : Int)) ++ " > "
              ++ toString m ++ " seconds") v (some ((t0 * 1000 : Nat) : Int)))) ∧
    ((t1 : Int) - (t0 : Int) < 0 →
      TimestampSigner.unsign cfg C E t1 token (some m) false
        = .error (.signatureExpired
            ("Signature age " ++ toString ((t1 : Int) - (t0 : Int)) ++ " < 0 seconds")
            v (some ((t0 * 1000 : Nat) : Int)))) ∧
    (0 ≤ (t1 : Int) - (t0 : Int) → (t1 : Int) - (t0 : Int) ≤ m →
      TimestampSigner.unsign cfg C E t1 token (some m) false = .ok (v, none)) := by
  have ht064 : t0 < 2 ^ 64 := t0_lt_two_pow_64_of_valid t0 ht0
  have hu := tsUnsign_of_sign cfg C E s v token t0 t1 (some m) false klast
    hE hsep hs hlast ht064 hsign
  have hd : TimestampSigner.timestampToDate t0 = .ok ((t0 * 1000 : Nat) : Int) := by
    unfold TimestampSigner.timestampToDate
    rw [if_pos ht0]
  refine ⟨?_, ?_, ?_⟩
  · intro hgt
    rw [hu]
    simp only [tsOutcome, hd]
    rw [if_pos hgt]
  · intro hlt
    have hngt : ¬((t1 : Int) - (t0 : Int) > m) := by omega
    rw [hu]
    simp only [tsOutcome, hd]
    rw [if_neg hngt, if_pos hlt]
  · intro hge hle
    have hngt : ¬((t1 : Int) - (t0 : Int) > m) := by omega
    have hnlt : ¬((t1 : Int) - (t0 : Int) < 0) := by omega
    rw [hu]
    simp only [tsOutcome, hd]
    rw [if_neg hngt, if_neg hnlt]
    rfl

/-- Witness for C4: signing time 1, checks at clock 7 (age 6 > 5, expired
with the literal message), and at clock 5 (age 4 within `maxAge` 5,
succeeds). -/
theorem c4_timestamp_expiry_witness :
    ∃ token, TimestampSigner.sign cfgW concatCrypto unaryB64 1 [5] = .ok token ∧
      TimestampSigner.unsign cfgW concatCrypto unaryB64 7 token (some 5) false
        = .error (.signatureExpired "Signature age 6 > 5 seconds" [5] (some 1000)) ∧
      TimestampSigner.unsign cfgW concatCrypto unaryB64 5 token (some 5) false
        = .ok ([5], none) := by
  refine ⟨_, rfl, ?_, ?_⟩
  · have h := (c4_timestamp_expiry cfgW concatCrypto unaryB64 46 [5] _ 1 7 5 [107]
      unaryB64_lawful rfl (by decide) rfl (by decide) (by decide) rfl).1 (by decide)
    rw [h]
    rfl
  · exact (c4_timestamp_expiry cfgW concatCrypto unaryB64 46 [5] _ 1 5 5 [107]
      unaryB64_lawful rfl (by decide) rfl (by decide) (by decide) rfl).2.2 (by decide) (by decide)

end Itsdangerous

namespace Itsdangerous

theorem decodePayload_encodePayload (Z : Zlib) (E : B64Codec) (json : Bytes)
    (hE : E.Lawful) (hZ : Z.decompress (Z.compress json) = some json) :
    decodePayload Z E (encodePayload Z E json) = .ok json := by
  by_cases hc : ((Z.compress json).length : Int) < (json.length : Int) - 1
  · have he : encodePayload Z E json = 46 :: E.enc (Z.compress json) := by
      simp only [encodePayload]
      rw [if_pos hc, if_pos hc]
      rfl
    rw [he]
    simp only [decodePayload, List.head?_cons, List.tail_cons, beq_self_eq_true, if_true]
    rw [hE.1]
    simp only [hZ]
  · have he : encodePayload Z E json = E.enc json := by
      simp only [encodePayload]
      rw [if_neg hc, if_neg hc]
    rw [he]
    have hhead : ((E.enc json).head? == some 46) = false := by
      cases henc : E.enc json with
      | nil => rfl
      | cons b rest =>
        have hb : b ∈ b64Alphabet := by
          have := hE.2 json b
          rw [henc] at this
          exact this (List.mem_cons_self b rest)
        have hb46 : b ≠ 46 := by
          intro h
          subst h
          revert hb
          decide
        simp [hb46]
    simp only [decodePayload, hhead, Bool.false_eq_true, if_false]
    rw [hE.1]

/-- **C1.** Round-trip: for every value whose configured serialization
codec round-trips on it, every lawful base64 collaborator, every
compressor that inverts its compression on the payload, every non-empty
key list and single-byte non-alphabet separator, and a signing time valid
as a `Date`: `parse (stringify v) = v` — for the plain `Serializer`, for
`URLSafeSerializer` (whether or not the payload shrank enough to trigger
compression), and for `TimedSerializer` / `URLSafeTimedSerializer`. -/
theorem c1_roundtrip {α : Type} (cfg : SignerCfg) (C : CryptoProvider) (E : B64Codec)
    (Z : Zlib) (S : SerCodec α) (s : Nat) (klast : Bytes) (val : α) (t0 t1 : Nat)
    (hE : E.Lawful) (hsep : cfg.separator = [s]) (hs : s ∉ b64Alphabet)
    (hlast : cfg.secretKeys.getLast? = some klast)
    (hS : S.parse (S.stringify val) = some val)
    (hZ : Z.decompress (Z.compress (S.stringify val)) = some (S.stringify val))
    (ht0 : t0 * 1000 ≤ maxDateMs) :
    (∀ tok, Serializer.stringify cfg C E S val = .ok tok →
      Serializer.parse cfg C E S tok = .ok val) ∧
    (∀ tok, URLSafeSerializer.stringify cfg C E Z S val = .ok tok →
      URLSafeSerializer.parse cfg C E Z S tok = .ok val) ∧
    (∀ tok, TimedSerializer.stringify cfg C E t0 S val = .ok tok →
      TimedSerializer.parse cfg C E t1 S tok none false = .ok (val, none)) ∧
    (∀ tok, URLSafeTimedSerializer.stringify cfg C E Z t0 S val = .ok tok →
      URLSafeTimedSerializer.parse cfg C E Z t1 S tok none false = .ok (val, none)) := by
  have ht064 : t0 < 2 ^ 64 := t0_lt_two_pow_64_of_valid t0 ht0
  have hd : TimestampSigner.timestampToDate t0 = .ok ((t0 * 1000 : Nat) : Int) := by
    unfold TimestampSigner.timestampToDate
    rw [if_pos ht0]
  have hmem : klast ∈ cfg.secretKeys := mem_of_getLastSome hlast
  have hout : tsOutcome (S.stringify val) t0 t1 none true
      = .ok (S.stringify val, some ((t0 * 1000 : Nat) : Int)) := by
    simp only [tsOutcome, hd, if_true]
  have houtZ : tsOutcome (encodePayload Z E (S.stringify val)) t0 t1 none true
      = .ok (encodePayload Z E (S.stringify val), some ((t0 * 1000 : Nat) : Int)) := by
    simp only [tsOutcome, hd, if_true]
  refine ⟨?_, ?_, ?_, ?_⟩
  · intro tok h
    have hu : Signer.unsign cfg C E tok = .ok (Serializer.stringifyPayload S val) :=
      unsign_sign_rotated cfg cfg.secretKeys C E s (Serializer.stringifyPayload S val) tok
        klast hE hsep hs hlast hmem h
    simp only [Serializer.parse, hu, except_bind_ok, Serializer.parsePayload,
      Serializer.stringifyPayload, hS]
  · intro tok h
    have hu : Signer.unsign cfg C E tok = .ok (URLSafeSerializer.stringifyPayload Z E S val) :=
      unsign_sign_rotated cfg cfg.secretKeys C E s (URLSafeSerializer.stringifyPayload Z E S val)
        tok klast hE hsep hs hlast hmem h
    simp only [URLSafeSerializer.parse, hu, except_bind_ok, URLSafeSerializer.parsePayload,
      URLSafeSerializer.stringifyPayload, Serializer.stringifyPayload,
      decodePayload_encodePayload Z E (S.stringify val) hE hZ, Serializer.parsePayload, hS]
  · intro tok h
    have hu := tsUnsign_of_sign cfg C E s (Serializer.stringifyPayload S val) tok t0 t1
      none true klast hE hsep hs hlast ht064 h
    simp only [TimedSerializer.parse, hu, Serializer.stringifyPayload, hout,
      except_bind_ok, Serializer.parsePayload, hS, Bool.false_eq_true, if_false]
  · intro tok h
    have hu := tsUnsign_of_sign cfg C E s (URLSafeSerializer.stringifyPayload Z E S val) tok
      t0 t1 none true klast hE hsep hs hlast ht064 h
    simp only [URLSafeTimedSerializer.parse, hu, URLSafeSerializer.stringifyPayload,
      Serializer.stringifyPayload, houtZ, except_bind_ok, URLSafeSerializer.parsePayload,
      decodePayload_encodePayload Z E (S.stringify val) hE hZ, Serializer.parsePayload, hS,
      Bool.false_eq_true, if_false]

end Itsdangerous

namespace Itsdangerous

/-- Witness for C1: the identity serialization codec over byte-list
values; a tiny value under the never-shrinking compressor (compression not
triggered) and a four-zero value under the one-byte compressor
(compression triggered — the encoded payload carries the `.` marker);
plain, URL-safe and URL-safe timed serializers. -/
theorem c1_roundtrip_witness :
    (∃ tok, Serializer.stringify cfgW concatCrypto unaryB64 idSerCodec [5] = .ok tok ∧
      Serializer.parse cfgW concatCrypto unaryB64 idSerCodec tok = .ok [5]) ∧
    (∃ tok,
      URLSafeSerializer.stringify cfgW concatCrypto unaryB64 idZlib idSerCodec [5]
        = .ok tok ∧
      URLSafeSerializer.stringifyPayload idZlib unaryB64 idSerCodec [5] = unaryEnc [5] ∧
      URLSafeSerializer.parse cfgW concatCrypto unaryB64 idZlib idSerCodec tok
        = .ok [5]) ∧
    (∃ tok,
      URLSafeSerializer.stringify cfgW concatCrypto unaryB64 constZlib idSerCodec
        [0, 0, 0, 0] = .ok tok ∧
      URLSafeSerializer.stringifyPayload constZlib unaryB64 idSerCodec [0, 0, 0, 0]
        = 46 :: unaryEnc (constZlib.compress [0, 0, 0, 0]) ∧
      URLSafeSerializer.parse cfgW concatCrypto unaryB64 constZlib idSerCodec tok
        = .ok [0, 0, 0, 0]) ∧
    (∃ tok,
      URLSafeTimedSerializer.stringify cfgW concatCrypto unaryB64 constZlib 1 idSerCodec
        [0, 0, 0, 0] = .ok tok ∧
      URLSafeTimedSerializer.parse cfgW concatCrypto unaryB64 constZlib 2 idSerCodec tok
        none false = .ok ([0, 0, 0, 0], none)) := by
  refine ⟨⟨_, rfl, ?_⟩, ⟨_, rfl, by decide, ?_⟩, ⟨_, rfl, by decide, ?_⟩, ⟨_, rfl, ?_⟩⟩
  · exact (c1_roundtrip cfgW concatCrypto unaryB64 idZlib idSerCodec 46 [107] [5] 1 1
      unaryB64_lawful rfl (by decide) rfl rfl rfl (by decide)).1 _ rfl
  · exact (c1_roundtrip cfgW concatCrypto unaryB64 idZlib idSerCodec 46 [107] [5] 1 1
      unaryB64_lawful rfl (by decide) rfl rfl rfl (by decide)).2.1 _ rfl
  · exact (c1_roundtrip cfgW concatCrypto unaryB64 constZlib idSerCodec 46 [107]
      [0, 0, 0, 0] 1 1 unaryB64_lawful rfl (by decide) rfl rfl (by decide)
      (by decide)).2.1 _ rfl
  · exact (c1_roundtrip cfgW concatCrypto unaryB64 constZlib idSerCodec 46 [107]
      [0, 0, 0, 0] 1 2 unaryB64_lawful rfl (by decide) rfl rfl (by decide)
      (by decide)).2.2.2 _ rfl

end Itsdangerous
